import Mathlib

/-!
Shallow embedding of the Video-Downloader repository core
(src/config.py, src/video_scraper.py, src/download_manager.py).

Strings are modelled as `List Char`.  External effects are modelled as
oracles passed in through an `Env` structure:
* `Env.respond vid attempt` gives the outcome of the HTTP GET that
  `VideoScraper.get_video_info` performs for video `vid` on the given
  0-based attempt index (a timeout exception, another exception, or a
  response carrying a status code, a body text and the parsed document);
* `Env.findall pat body` models `re.findall(pat, body, re.IGNORECASE)`;
* the parsed document (`Soup`) maps a selector to the text of the first
  matching element, `none` meaning no element was found (or the lookup
  raised, which `_extract_title` treats the same way).
-/

namespace VideoDL

/-- ASCII whitespace as stripped/split by Python str.strip / str.split. -/
def isPySpace (c : Char) : Bool :=
  c = ' ' || c = '\t' || c = '\n' || c = '\r' || c = '\x0b' || c = '\x0c'

/-- Python `s.lstrip()` on ASCII whitespace. -/
def lstrip (l : List Char) : List Char := l.dropWhile isPySpace

/-- Python `s.rstrip()` on ASCII whitespace. -/
def rstrip (l : List Char) : List Char := (l.reverse.dropWhile isPySpace).reverse

/-- Python `s.strip()` on ASCII whitespace. -/
def pyStrip (l : List Char) : List Char := rstrip (lstrip l)

/-- Helper of `pyWords`: the accumulator holds the current word reversed. -/
def pyWordsAux : List Char → List Char → List (List Char)
  | [], [] => []
  | [], a :: as => [(a :: as).reverse]
  | c :: rest, acc =>
    if isPySpace c then
      match acc with
      | [] => pyWordsAux rest []
      | a :: as => (a :: as).reverse :: pyWordsAux rest []
    else pyWordsAux rest (c :: acc)

/-- Python `s.split()` with no argument: whitespace-delimited words,
empty words dropped. -/
def pyWords (l : List Char) : List (List Char) := pyWordsAux l []

/-- Python `' '.join(words)`. -/
def joinWords : List (List Char) → List Char
  | [] => []
  | [w] => w
  | w :: ws => w ++ ' ' :: joinWords ws

/-- Python `s.startswith(p)` (here `p` is the first argument). -/
def leadsWith : List Char → List Char → Bool
  | [], _ => true
  | _ :: _, [] => false
  | c :: cs, d :: ds => c == d && leadsWith cs ds

/-- Python `s.split(sep)` for a single-character separator, specialised to
the newline separator used by `DownloadManager.load_links`. -/
def splitOnNl : List Char → List (List Char)
  | [] => [[]]
  | c :: rest =>
    if c = '\n' then [] :: splitOnNl rest
    else
      match splitOnNl rest with
      | [] => [[c]]
      | l :: ls => (c :: l) :: ls

/-- Python list indexing `l[i]` with negative-index semantics; `none`
models an `IndexError`. -/
def pyGet (l : List Nat) (i : Int) : Option Nat :=
  if 0 ≤ i then l[i.toNat]?
  else
    let j : Int := (l.length : Int) + i
    if 0 ≤ j then l[j.toNat]? else none

/-! ### Configuration (src/config.py) -/

/-- The configuration surface read by the core (fields of src/config.py
that the embedded functions consult). -/
structure Config where
  startVideoId : Nat
  endVideoId : Nat
  seasonEpisodes : List Nat
  startingSeason : Nat
  startingEpisode : Nat
  maxRetries : Nat
  minHtmlLength : Nat
  videoUrlPatterns : List (List Char)
  titleSelectors : List (List Char)

/-- The concrete values of src/config.py. -/
def config : Config where
  startVideoId := 5627
  endVideoId := 5634
  seasonEpisodes := [19, 6, 10, 10, 7, 8]
  startingSeason := 6
  startingEpisode := 1
  maxRetries := 3
  minHtmlLength := 1000
  videoUrlPatterns := [("https://s3\\.7learn\\.com/[^\"\\s]+\\.mp4").toList]
  titleSelectors := [['h', '1']]

/-- The table `FILENAME_REPLACE_CHARS` from src/config.py, as an association list in
the insertion order of the Python dict literal. -/
def filenameReplaceChars : List (Char × Char) :=
  [('\\', '_'), ('/', '_'), (':', '_'), ('*', '_'),
   ('?', '_'), ('"', '_'), ('<', '_'), ('>', '_'), ('|', '_')]

/-- Whether `c` is one of the keys of `FILENAME_REPLACE_CHARS`. -/
def forbiddenChar (c : Char) : Bool :=
  c = '\\' || c = '/' || c = ':' || c = '*' ||
  c = '?' || c = '"' || c = '<' || c = '>' || c = '|'

/-! ### Filename handling (src/video_scraper.py) -/

/-- The `for char, replacement in FILENAME_REPLACE_CHARS.items():
filename = filename.replace(char, replacement)` loop of
`VideoScraper._sanitize_filename`. -/
def replacePass (l : List Char) : List Char :=
  filenameReplaceChars.foldl
    (fun acc p => acc.map fun x => if x = p.1 then p.2 else x) l

/-- Model of `VideoScraper._sanitize_filename`: replace unsafe characters, then
`' '.join(filename.split())`. -/
def sanitizeFilename (l : List Char) : List Char :=
  joinWords (pyWords (replacePass l))

/-- Decimal digit character for `d` in 0..9. -/
def decDigit (d : Nat) : Char := Char.ofNat (48 + d % 10)

/-- Fuel-driven decimal printer (fuel bounds the digit count). -/
def decimalAux : Nat → Nat → List Char → List Char
  | 0, _, acc => acc
  | fuel + 1, n, acc =>
    if n < 10 then decDigit n :: acc
    else decimalAux fuel (n / 10) (decDigit (n % 10) :: acc)

/-- Modelled from the spec: Python decimal rendering of a nonnegative
integer as used by `str.format`. -/
def natDecimal (n : Nat) : List Char := decimalAux (n + 1) n []

/-- Python format spec `:02d` for a nonnegative integer: zero-pad to
width two. -/
def pad2 (n : Nat) : List Char :=
  let d := natDecimal n
  if d.length < 2 then '0' :: d else d

/-- Model of `VideoScraper._create_filename`, applying the template
`FILENAME_FORMAT` (an S / E prefix with two-digit season and episode,
then the title, then the .mp4 suffix). -/
def createFilename (season episode : Nat) (title : List Char) : List Char :=
  'S' :: pad2 season ++ '-' :: 'E' :: pad2 episode ++ '-' :: title ++ ('.' :: ['m', 'p', '4'])

/-! ### Fetching and extraction (src/video_scraper.py) -/

/-- The parsed HTML document, as queried by `_extract_title`: a selector
maps to the `.text` of the first matching element, or `none` when no
element matches (or the lookup raises). -/
def Soup : Type := List Char → Option (List Char)

/-- Outcome of one `self.session.get(url, timeout=...)` call. -/
inductive AttemptOutcome where
  | excTimeout : AttemptOutcome
  | excOther : AttemptOutcome
  | response (status : Nat) (text : List Char) (soup : Soup) : AttemptOutcome

/-- The external world: the regex engine and the HTTP session. -/
structure Env where
  findall : List Char → List Char → List (List Char)
  respond : Nat → Nat → AttemptOutcome

/-- Model of `VideoScraper._extract_video_url`: first match of the first
configured pattern that has any match. -/
def extractVideoUrl (patterns : List (List Char))
    (findall : List Char → List Char → List (List Char))
    (text : List Char) : Option (List Char) :=
  match patterns with
  | [] => none
  | p :: rest =>
    match findall p text with
    | [] => extractVideoUrl rest findall text
    | m :: _ => some m

/-- Model of `VideoScraper._extract_title`: first selector whose element text
strips to a nonempty string wins (the text is stripped, then sanitized);
otherwise the placeholder title. -/
def extractTitle (selectors : List (List Char)) (soup : Soup) : List Char :=
  match selectors with
  | [] => ("Unknown_Title").toList
  | sel :: rest =>
    match soup sel with
    | none => extractTitle rest soup
    | some txt =>
      if (pyStrip txt).isEmpty then extractTitle rest soup
      else sanitizeFilename (pyStrip txt)

/-- Model of `_handle_request_error` returning `true` when the attempt must be
retried: non-200 status or body below `MIN_HTML_LENGTH`. -/
def handleRequestError (cfg : Config) (status : Nat) (text : List Char) : Bool :=
  status ≠ 200 || text.length < cfg.minHtmlLength

/-- The retry loop of `VideoScraper.get_video_info`, by recursion on the
number of remaining attempts; the 0-based attempt index is
`cfg.maxRetries - remaining`. -/
def getVideoInfoGo (cfg : Config) (env : Env) (vid season episode : Nat) :
    Nat → Option (List Char × List Char)
  | 0 => none
  | remaining + 1 =>
    match env.respond vid (cfg.maxRetries - (remaining + 1)) with
    | .excTimeout => getVideoInfoGo cfg env vid season episode remaining
    | .excOther => getVideoInfoGo cfg env vid season episode remaining
    | .response status text soup =>
      if handleRequestError cfg status text then
        getVideoInfoGo cfg env vid season episode remaining
      else
        match extractVideoUrl cfg.videoUrlPatterns env.findall text with
        | none => getVideoInfoGo cfg env vid season episode remaining
        | some url =>
          some (url, createFilename season episode (extractTitle cfg.titleSelectors soup))

/-- Model of `VideoScraper.get_video_info`: up to `MAX_RETRIES` attempts, `none`
on exhaustion. -/
def getVideoInfo (cfg : Config) (env : Env) (vid season episode : Nat) :
    Option (List Char × List Char) :=
  getVideoInfoGo cfg env vid season episode cfg.maxRetries

/-- Whether the outcome of one HTTP attempt lets `get_video_info` return
a result on that attempt: a 200 response, long enough, in which some
configured pattern matches. -/
def attemptConcludes (cfg : Config) (env : Env) (o : AttemptOutcome) : Bool :=
  match o with
  | .response status text _ =>
    !handleRequestError cfg status text &&
      (extractVideoUrl cfg.videoUrlPatterns env.findall text).isSome
  | _ => false

/-- Observation function: how many attempts the retry loop of
`get_video_info` performs (mirrors the recursion of `getVideoInfoGo`). -/
def attemptsUsedGo (cfg : Config) (env : Env) (vid : Nat) : Nat → Nat
  | 0 => 0
  | remaining + 1 =>
    if attemptConcludes cfg env (env.respond vid (cfg.maxRetries - (remaining + 1))) then 1
    else 1 + attemptsUsedGo cfg env vid remaining

/-- Number of HTTP attempts `get_video_info` performs for `vid`. -/
def attemptsUsed (cfg : Config) (env : Env) (vid : Nat) : Nat :=
  attemptsUsedGo cfg env vid cfg.maxRetries

/-! ### The orchestrator (VideoScraper.scrape_videos) -/

/-- One entry of the `videos` result list of `scrape_videos`. -/
structure Record where
  url : List Char
  filename : List Char
  video_id : Nat
  season : Nat
  episode : Nat
deriving DecidableEq, Inhabited

/-- Trace event of one loop iteration: a record was appended, or the
iteration logged a failure (a skip) — the skip also carries the cursor
position at which the identifier was processed. -/
inductive Event where
  | found (r : Record) : Event
  | skip (vid season episode : Nat) : Event
deriving DecidableEq

/-- The identifier an event is about. -/
def evVid : Event → Nat
  | .found r => r.video_id
  | .skip vid _ _ => vid

/-- The cursor position at which an event's identifier was processed. -/
def evCursor : Event → Nat × Nat
  | .found r => (r.season, r.episode)
  | .skip _ s e => (s, e)

/-- How a run of the loop ended. -/
inductive Halt where
  | rangeEnd : Halt
  | overflow : Halt
  | indexError : Halt
deriving DecidableEq

/-- Trace of one run: the per-identifier events in order, the number of
inter-request sleeps the loop performed, and how the loop ended. -/
structure Trace where
  events : List Event
  sleeps : Nat
  halt : Halt
deriving DecidableEq

/-- Result of the cursor-update block at the end of a loop iteration
(`episode += 1` and the rollover / overflow checks). -/
inductive AdvanceResult where
  | next (season episode : Nat) : AdvanceResult
  | overflow : AdvanceResult
  | indexError : AdvanceResult
deriving DecidableEq

/-- The cursor-update block of `scrape_videos`: bump the episode, roll
over into the next season when the configured count is exceeded, and
stop (`overflow`) when the season table is exhausted;
`SEASON_EPISODES[season - 1]` uses Python indexing and can raise. -/
def advanceCursor (counts : List Nat) (season episode : Nat) : AdvanceResult :=
  let episode' := episode + 1
  match pyGet counts ((season : Int) - 1) with
  | none => .indexError
  | some cnt =>
    if episode' > cnt then
      if season + 1 > counts.length then .overflow else .next (season + 1) 1
    else .next season episode'

/-- The `for video_id in range(START_VIDEO_ID, END_VIDEO_ID + 1)` loop of
`scrape_videos` over the remaining identifiers, carrying the season and
episode counters.  A sleep is performed at the end of every iteration
that neither breaks on season overflow nor raises. -/
def scrapeGo (cfg : Config) (env : Env) : List Nat → Nat → Nat → Trace
  | [], _, _ => ⟨[], 0, .rangeEnd⟩
  | vid :: rest, season, episode =>
    let ev : Event :=
      match getVideoInfo cfg env vid season episode with
      | some (url, fn) => .found ⟨url, fn, vid, season, episode⟩
      | none => .skip vid season episode
    match advanceCursor cfg.seasonEpisodes season episode with
    | .indexError => ⟨[ev], 0, .indexError⟩
    | .overflow => ⟨[ev], 0, .overflow⟩
    | .next season' episode' =>
      let t := scrapeGo cfg env rest season' episode'
      ⟨ev :: t.events, t.sleeps + 1, t.halt⟩

/-- The identifier range `range(START_VIDEO_ID, END_VIDEO_ID + 1)`. -/
def rangeIds (cfg : Config) : List Nat :=
  List.range' cfg.startVideoId (cfg.endVideoId + 1 - cfg.startVideoId)

/-- The trace of one full run of `VideoScraper.scrape_videos`. -/
def scrapeTrace (cfg : Config) (env : Env) : Trace :=
  scrapeGo cfg env (rangeIds cfg) cfg.startingSeason cfg.startingEpisode

/-- The records accumulated in the `videos` list, in order. -/
def traceRecords (t : Trace) : List Record :=
  t.events.filterMap fun ev =>
    match ev with
    | .found r => some r
    | .skip _ _ _ => none

/-- Model of `VideoScraper.scrape_videos` as a value: the accumulated record list,
or an error when the loop raised an `IndexError` (the list is lost). -/
def scrapeVideos (cfg : Config) (env : Env) : Except Unit (List Record) :=
  let t := scrapeTrace cfg env
  match t.halt with
  | .indexError => .error ()
  | _ => .ok (traceRecords t)

/-- The cursor positions the loop would visit, as a pure function of the
episode table, the number of remaining identifiers and the starting
cursor (no dependence on fetch outcomes). -/
def cursorList (counts : List Nat) : Nat → Nat → Nat → List (Nat × Nat)
  | 0, _, _ => []
  | n + 1, season, episode =>
    (season, episode) ::
      match advanceCursor counts season episode with
      | .next s' e' => cursorList counts n s' e'
      | _ => []

/-! ### Serialization (save_download_links) and parsing (load_links) -/

/-- The `  out=<filename>` line written for one record. -/
def outLineOf (v : Record) : List Char :=
  ' ' :: ' ' :: 'o' :: 'u' :: 't' :: '=' :: v.filename

/-- The two writes `f.write(url + nl)` and `f.write(indent + out= +
filename + nl + nl)` for one record. -/
def blockOf (v : Record) : List Char :=
  v.url ++ '\n' :: (outLineOf v ++ ['\n', '\n'])

/-- Model of `VideoScraper.save_download_links`: the full file content written for
a record list. -/
def saveDownloadLinks (videos : List Record) : List Char :=
  (videos.map blockOf).flatten

/-- The scheme prefix `load_links` looks for on a stripped line. -/
def httpsMark : List Char := 'h' :: 't' :: 't' :: 'p' :: 's' :: ':' :: '/' :: ['/']

/-- The output-name prefix `load_links` looks for on a stripped line. -/
def outMark : List Char := 'o' :: 'u' :: 't' :: ['=']

/-- The parsing loop of `DownloadManager.load_links` over the stripped
lines, carrying `current_url`. -/
def parseLines : List (List Char) → Option (List Char) → List (List Char × List Char)
  | [], _ => []
  | line :: rest, cur =>
    let l := pyStrip line
    if leadsWith httpsMark l then
      parseLines rest (some l)
    else if leadsWith outMark l then
      match cur with
      | some u => (u, l.drop 4) :: parseLines rest none
      | none => parseLines rest cur
    else parseLines rest cur

/-- Model of `DownloadManager.load_links`: strip the content, split it on
newlines, and fold the parsing loop. -/
def loadLinks (content : List Char) : List (List Char × List Char) :=
  parseLines (splitOnNl (pyStrip content)) none

/-! ### Lemmas about sanitization -/

/-- Pointwise effect of the replacement fold on a single character. -/
def applyAll (ps : List (Char × Char)) (x : Char) : Char :=
  ps.foldl (fun a p => if a = p.1 then p.2 else a) x

/-- Whether a selector yields no usable title text on this document:
no element (or an exception), or element text that strips to empty. -/
def selFails (soup : Soup) (sel : List Char) : Bool :=
  match soup sel with
  | none => true
  | some txt => (pyStrip txt).isEmpty

/-! ### Concrete environments and configurations used as witnesses -/

/-- An environment whose every request raises a generic exception and
whose regex engine finds nothing. -/
def env0 : Env := ⟨fun _ _ => [], fun _ _ => .excOther⟩

/-- An environment that always answers 200 with an empty (hence too
short) body. -/
def envShort : Env := ⟨fun _ _ => [], fun _ _ => .response 200 [] (fun _ => none)⟩

/-- An environment whose every request succeeds with a fixed body,
a fixed first regex match and a fixed h1 title. -/
def envOk : Env :=
  ⟨fun _ _ => [("https://s/v.mp4").toList],
   fun _ _ => .response 200 (("aaaa").toList) (fun _ => some ((" My:Title ").toList))⟩

/-- A small demonstration configuration: ids 1..2, two seasons of 2 and
3 episodes, starting at season 1 episode 1. -/
def cfgDemo : Config := ⟨1, 2, [2, 3], 1, 1, 2, 3, [("pat").toList], [("h1").toList]⟩

/-- A single-identifier configuration whose run ends by range
exhaustion. -/
def cfg9 : Config := ⟨1, 1, [5], 1, 1, 1, 0, [], []⟩

/-- A configuration whose starting season exceeds the season table. -/
def cfgBad : Config := ⟨1, 1, [5], 2, 1, 1, 0, [], []⟩

/-- A configuration mirroring the spec's retry example: 3 attempts. -/
def cfg7 : Config := ⟨1, 1, [5], 1, 1, 3, 1000, [], []⟩

/-- The record produced for id 1 by `cfgDemo` under `envOk`. -/
def recDemo : Record :=
  ⟨("https://s/v.mp4").toList, ("S01-E01-My_Title.mp4").toList, 1, 1, 1⟩

/-- A regex oracle where pattern A matches nothing and pattern B has two
matches. -/
def findallDemo : List Char → List Char → List (List Char) := fun p _ =>
  if p = ("B").toList then [("http://x/y.mp4").toList, ("dup").toList] else []

/-- A document where selector h1 finds nothing and selector h2 finds
padded text. -/
def soupDemo : Soup := fun sel =>
  if sel = ("h2").toList then some ((" T ").toList) else none

/-- Whether a string does not end in a whitespace character (so the
parser's per-line strip leaves it intact on the right). -/
def noTrailSpace (l : List Char) : Bool :=
  match l.getLast? with
  | none => true
  | some c => !isPySpace c

/-- Records the parser reconstructs intact: the url carries the https
scheme and neither field contains a newline nor ends in whitespace. -/
def goodRec (v : Record) : Prop :=
  leadsWith httpsMark v.url = true ∧ '\n' ∉ v.url ∧ noTrailSpace v.url = true ∧
  '\n' ∉ v.filename ∧ noTrailSpace v.filename = true

instance (v : Record) : Decidable (goodRec v) := by
  unfold goodRec; infer_instance

/-- The stripped lines the parser sees for a record list (trailing blank
lines having been removed by the whole-content strip). -/
def linesOf : List Record → List (List Char)
  | [] => []
  | [v] => [v.url, outLineOf v]
  | v :: vs => v.url :: outLineOf v :: [] :: linesOf vs

theorem foldl_map_eq_map_applyAll (ps : List (Char × Char)) (l : List Char) :
    ps.foldl (fun acc p => acc.map fun x => if x = p.1 then p.2 else x) l
      = l.map (applyAll ps) := by
  induction ps generalizing l with
  | nil =>
    simp only [List.foldl_nil]
    exact (List.map_id' l).symm
  | cons p ps ih =>
    simp only [List.foldl_cons, ih, List.map_map]
    rfl

theorem applyAll_replaceChars (c : Char) :
    applyAll filenameReplaceChars c = if forbiddenChar c then '_' else c := by
  unfold applyAll filenameReplaceChars
  simp only [List.foldl_cons, List.foldl_nil]
  by_cases h1 : c = '\\'
  · subst h1; decide
  by_cases h2 : c = '/'
  · subst h2; decide
  by_cases h3 : c = ':'
  · subst h3; decide
  by_cases h4 : c = '*'
  · subst h4; decide
  by_cases h5 : c = '?'
  · subst h5; decide
  by_cases h6 : c = '"'
  · subst h6; decide
  by_cases h7 : c = '<'
  · subst h7; decide
  by_cases h8 : c = '>'
  · subst h8; decide
  by_cases h9 : c = '|'
  · subst h9; decide
  simp [forbiddenChar, h1, h2, h3, h4, h5, h6, h7, h8, h9]

theorem replacePass_eq_map (l : List Char) :
    replacePass l = l.map fun c => if forbiddenChar c then '_' else c := by
  unfold replacePass
  rw [foldl_map_eq_map_applyAll]
  exact List.map_congr_left fun c _ => applyAll_replaceChars c

theorem forbiddenChar_underscore : forbiddenChar '_' = false := by decide

theorem mem_replacePass_clean {c : Char} {l : List Char}
    (h : c ∈ replacePass l) : forbiddenChar c = false := by
  rw [replacePass_eq_map] at h
  obtain ⟨d, _, hd⟩ := List.mem_map.1 h
  by_cases hu : forbiddenChar d
  · simp [hu] at hd; subst hd; decide
  · simp [hu] at hd; subst hd; simpa using hu

theorem replacePass_of_clean {l : List Char}
    (h : ∀ c ∈ l, forbiddenChar c = false) : replacePass l = l := by
  rw [replacePass_eq_map]
  conv_rhs => rw [← List.map_id l]
  exact List.map_congr_left fun c hc => by simp [h c hc]

theorem pyWordsAux_word (w : List Char) (hw : ∀ c ∈ w, isPySpace c = false) :
    ∀ t acc, pyWordsAux (w ++ t) acc = pyWordsAux t (w.reverse ++ acc) := by
  induction w with
  | nil => simp
  | cons c w ih =>
    intro t acc
    have hc : isPySpace c = false := hw c (by simp)
    have hw' : ∀ d ∈ w, isPySpace d = false := fun d hd => hw d (by simp [hd])
    show pyWordsAux (c :: (w ++ t)) acc = _
    simp only [pyWordsAux, hc, Bool.false_eq_true, if_false]
    rw [ih hw' t (c :: acc)]
    simp [List.reverse_cons, List.append_assoc]

theorem pyWordsAux_sound {l : List Char} :
    ∀ {acc : List Char}, (∀ c ∈ acc, isPySpace c = false) →
      ∀ w ∈ pyWordsAux l acc, w ≠ [] ∧ ∀ c ∈ w, isPySpace c = false := by
  induction l with
  | nil =>
    intro acc hacc w hw
    cases acc with
    | nil => simp [pyWordsAux] at hw
    | cons a as =>
      simp only [pyWordsAux, List.mem_singleton] at hw
      subst hw
      exact ⟨by simp, fun c hc => hacc c (List.mem_reverse.1 hc)⟩
  | cons c rest ih =>
    intro acc hacc w hw
    by_cases hc : isPySpace c
    · cases acc with
      | nil =>
        simp only [pyWordsAux, hc, if_true] at hw
        exact ih (by simp) w hw
      | cons a as =>
        simp only [pyWordsAux, hc, if_true, List.mem_cons] at hw
        rcases hw with hw | hw
        · subst hw
          exact ⟨by simp, fun d hd => hacc d (List.mem_reverse.1 hd)⟩
        · exact ih (by simp) w hw
    · simp only [pyWordsAux, hc, Bool.false_eq_true, if_false] at hw
      refine ih (fun d hd => ?_) w hw
      rcases List.mem_cons.1 hd with hd | hd
      · subst hd; simpa using hc
      · exact hacc d hd

theorem pyWordsAux_chars {l : List Char} :
    ∀ {acc : List Char}, ∀ w ∈ pyWordsAux l acc, ∀ c ∈ w, c ∈ acc ∨ c ∈ l := by
  induction l with
  | nil =>
    intro acc w hw c hc
    cases acc with
    | nil => simp [pyWordsAux] at hw
    | cons a as =>
      simp only [pyWordsAux, List.mem_singleton] at hw
      subst hw
      exact Or.inl (List.mem_reverse.1 hc)
  | cons d rest ih =>
    intro acc w hw c hc
    by_cases hd : isPySpace d
    · cases acc with
      | nil =>
        simp only [pyWordsAux, hd, if_true] at hw
        rcases ih w hw c hc with h' | h'
        · simp at h'
        · exact Or.inr (by simp [h'])
      | cons a as =>
        simp only [pyWordsAux, hd, if_true, List.mem_cons] at hw
        rcases hw with hw | hw
        · subst hw; exact Or.inl (List.mem_reverse.1 hc)
        · rcases ih w hw c hc with h' | h'
          · simp at h'
          · exact Or.inr (by simp [h'])
    · simp only [pyWordsAux, hd, Bool.false_eq_true, if_false] at hw
      rcases ih w hw c hc with h' | h'
      · rcases List.mem_cons.1 h' with h'' | h''
        · exact Or.inr (by simp [h''])
        · exact Or.inl h''
      · exact Or.inr (by simp [h'])

theorem pyWords_sound (l : List Char) :
    ∀ w ∈ pyWords l, w ≠ [] ∧ ∀ c ∈ w, isPySpace c = false :=
  pyWordsAux_sound (by simp)

theorem pyWords_chars (l : List Char) : ∀ w ∈ pyWords l, ∀ c ∈ w, c ∈ l := by
  intro w hw c hc
  rcases pyWordsAux_chars w hw c hc with h | h
  · simp at h
  · exact h

theorem mem_joinWords {c : Char} :
    ∀ {ws : List (List Char)}, c ∈ joinWords ws → c = ' ' ∨ ∃ w ∈ ws, c ∈ w := by
  intro ws
  induction ws with
  | nil => intro h; simp [joinWords] at h
  | cons w ws ih =>
    intro h
    cases ws with
    | nil =>
      simp only [joinWords] at h
      exact Or.inr ⟨w, by simp, h⟩
    | cons w' ws' =>
      simp only [joinWords, List.mem_append, List.mem_cons] at h
      rcases h with h | h | h
      · exact Or.inr ⟨w, by simp, h⟩
      · exact Or.inl h
      · rcases ih h with h' | ⟨u, hu, hcu⟩
        · exact Or.inl h'
        · exact Or.inr ⟨u, by simp [hu], hcu⟩

theorem pyWords_joinWords {ws : List (List Char)}
    (h : ∀ w ∈ ws, w ≠ [] ∧ ∀ c ∈ w, isPySpace c = false) :
    pyWords (joinWords ws) = ws := by
  induction ws with
  | nil => simp [joinWords, pyWords, pyWordsAux]
  | cons w ws ih =>
    obtain ⟨hne, hw⟩ := h w (by simp)
    obtain ⟨a, as, hrev⟩ : ∃ a as, w.reverse = a :: as := by
      cases hr : w.reverse with
      | nil => exact absurd (by simpa using congrArg List.reverse hr) hne
      | cons a as => exact ⟨a, as, rfl⟩
    cases ws with
    | nil =>
      show pyWordsAux (joinWords [w]) [] = [w]
      have hj : joinWords [w] = w ++ [] := by simp [joinWords]
      rw [hj, pyWordsAux_word w hw, List.append_nil, hrev]
      show [(a :: as).reverse] = [w]
      rw [← hrev, List.reverse_reverse]
    | cons w' ws' =>
      show pyWordsAux (joinWords (w :: w' :: ws')) [] = w :: w' :: ws'
      have hj : joinWords (w :: w' :: ws') = w ++ ' ' :: joinWords (w' :: ws') := rfl
      rw [hj, pyWordsAux_word w hw, List.append_nil, hrev]
      have hsp : isPySpace ' ' = true := by decide
      simp only [pyWordsAux, hsp, if_true]
      have : (a :: as).reverse = w := by rw [← hrev, List.reverse_reverse]
      rw [this]
      exact congrArg (w :: ·) (ih fun u hu => h u (by simp [hu]))

theorem mem_sanitize_clean {c : Char} {l : List Char}
    (h : c ∈ sanitizeFilename l) : forbiddenChar c = false := by
  unfold sanitizeFilename at h
  rcases mem_joinWords h with h' | ⟨w, hw, hcw⟩
  · subst h'; decide
  · exact mem_replacePass_clean (pyWords_chars _ w hw c hcw)

/-- C5: `_sanitize_filename` is idempotent: replacing unsafe characters,
collapsing whitespace runs and trimming, applied to its own output,
returns that output unchanged. -/
theorem sanitizeFilename_idempotent (l : List Char) :
    sanitizeFilename (sanitizeFilename l) = sanitizeFilename l := by
  have hclean : ∀ c ∈ sanitizeFilename l, forbiddenChar c = false := fun c hc =>
    mem_sanitize_clean hc
  calc sanitizeFilename (sanitizeFilename l)
      = joinWords (pyWords (replacePass (sanitizeFilename l))) := rfl
    _ = joinWords (pyWords (sanitizeFilename l)) := by
        rw [replacePass_of_clean hclean]
    _ = joinWords (pyWords (joinWords (pyWords (replacePass l)))) := rfl
    _ = joinWords (pyWords (replacePass l)) := by
        rw [pyWords_joinWords (pyWords_sound (replacePass l))]
    _ = sanitizeFilename l := rfl

/-! ### Lemmas about URL and title extraction -/

/-- C6: `_extract_video_url` scans the configured pattern list in
priority order and returns the first match of the first pattern that has
any match; if an earlier pattern matches nothing and a later pattern
matches, the later pattern's first match is returned, and if no pattern
matches the result is `none`. -/
theorem extractVideoUrl_priority (findall : List Char → List Char → List (List Char))
    (text : List Char) :
    (∀ (pre : List (List Char)) (q : List Char) (post : List (List Char))
        (m : List Char) (ms : List (List Char)),
        (∀ p ∈ pre, findall p text = []) → findall q text = m :: ms →
        extractVideoUrl (pre ++ q :: post) findall text = some m) ∧
    ∀ pats : List (List Char), (∀ p ∈ pats, findall p text = []) →
      extractVideoUrl pats findall text = none := by
  constructor
  · intro pre q post m ms hpre hq
    induction pre with
    | nil => simp [extractVideoUrl, hq]
    | cons p pre ih =>
      have hp : findall p text = [] := hpre p (by simp)
      simp only [List.cons_append, extractVideoUrl, hp]
      exact ih fun p' hp' => hpre p' (by simp [hp'])
  · intro pats hall
    induction pats with
    | nil => rfl
    | cons p pats ih =>
      have hp : findall p text = [] := hall p (by simp)
      simp only [extractVideoUrl, hp]
      exact ih fun p' hp' => hall p' (by simp [hp'])

/-- C8: `_extract_title` tries the selectors in order and returns the
first selector's usable text (stripped, then sanitized); when every
selector fails it returns the placeholder, and when a media URL was
found the attempt still succeeds whatever the document looks like — the
returned pair does not depend on title extraction succeeding. -/
theorem extractTitle_fallback :
    (∀ (pre : List (List Char)) (sel : List Char) (post : List (List Char))
        (soup : Soup) (txt : List Char),
        (∀ s ∈ pre, selFails soup s = true) → soup sel = some txt →
        (pyStrip txt).isEmpty = false →
        extractTitle (pre ++ sel :: post) soup = sanitizeFilename (pyStrip txt)) ∧
    (∀ (sels : List (List Char)) (soup : Soup),
        (∀ s ∈ sels, selFails soup s = true) →
        extractTitle sels soup = ("Unknown_Title").toList) ∧
    ∀ (cfg : Config) (env : Env) (vid season episode remaining status : Nat)
      (text : List Char) (soup : Soup) (url : List Char),
      env.respond vid (cfg.maxRetries - (remaining + 1)) = .response status text soup →
      handleRequestError cfg status text = false →
      extractVideoUrl cfg.videoUrlPatterns env.findall text = some url →
      getVideoInfoGo cfg env vid season episode (remaining + 1) =
        some (url, createFilename season episode (extractTitle cfg.titleSelectors soup)) := by
  refine ⟨?_, ?_, ?_⟩
  · intro pre sel post soup txt hpre hsel hne
    induction pre with
    | nil => simp [extractTitle, hsel, hne]
    | cons s pre ih =>
      have hs : selFails soup s = true := hpre s (by simp)
      unfold selFails at hs
      simp only [List.cons_append, extractTitle]
      cases hss : soup s with
      | none => exact ih fun s' hs' => hpre s' (by simp [hs'])
      | some t =>
        rw [hss] at hs
        simp only at hs
        rw [List.isEmpty_iff] at hs
        simp only [hs]
        have : (pyStrip t).isEmpty = true := by simp [hs]
        simp only [List.isEmpty_iff] at this
        simp only [this, List.isEmpty_nil, if_true]
        exact ih fun s' hs' => hpre s' (by simp [hs'])
  · intro sels soup hall
    induction sels with
    | nil => rfl
    | cons s sels ih =>
      have hs : selFails soup s = true := hall s (by simp)
      unfold selFails at hs
      simp only [extractTitle]
      cases hss : soup s with
      | none => exact ih fun s' hs' => hall s' (by simp [hs'])
      | some t =>
        rw [hss] at hs
        simp only at hs
        simp only [hs, if_true]
        exact ih fun s' hs' => hall s' (by simp [hs'])
  · intro cfg env vid season episode remaining status text soup url hresp herr hurl
    simp [getVideoInfoGo, hresp, herr, hurl]

/-! ### Lemmas about the retry loop -/

theorem getVideoInfoGo_all_fail (cfg : Config) (env : Env) (vid season episode : Nat) :
    ∀ r, r ≤ cfg.maxRetries →
      (∀ a, cfg.maxRetries - r ≤ a → a < cfg.maxRetries →
        attemptConcludes cfg env (env.respond vid a) = false) →
      getVideoInfoGo cfg env vid season episode r = none ∧
        attemptsUsedGo cfg env vid r = r := by
  intro r
  induction r with
  | zero => exact fun _ _ => ⟨rfl, rfl⟩
  | succ r ih =>
    intro hr hfail
    have hle : r ≤ cfg.maxRetries := Nat.le_of_succ_le hr
    have hfail' : ∀ a, cfg.maxRetries - r ≤ a → a < cfg.maxRetries →
        attemptConcludes cfg env (env.respond vid a) = false := fun a ha1 ha2 =>
      hfail a (by omega) ha2
    have hi : attemptConcludes cfg env
        (env.respond vid (cfg.maxRetries - (r + 1))) = false :=
      hfail _ (by omega) (by omega)
    obtain ⟨ihn, iha⟩ := ih hle hfail'
    constructor
    · show getVideoInfoGo cfg env vid season episode (r + 1) = none
      unfold getVideoInfoGo
      cases ho : env.respond vid (cfg.maxRetries - (r + 1)) with
      | excTimeout => exact ihn
      | excOther => exact ihn
      | response status text soup =>
        rw [ho] at hi
        unfold attemptConcludes at hi
        simp only [Bool.and_eq_false_iff, Bool.not_eq_false'] at hi
        cases herr : handleRequestError cfg status text with
        | true => simp only [herr, if_true]; exact ihn
        | false =>
          simp only [herr, Bool.false_eq_true, if_false]
          rcases hi with hi | hi
          · rw [herr] at hi; cases hi
          · have : extractVideoUrl cfg.videoUrlPatterns env.findall text = none := by
              cases hx : extractVideoUrl cfg.videoUrlPatterns env.findall text with
              | none => rfl
              | some u => rw [hx] at hi; simp at hi
            rw [this]
            exact ihn
    · show attemptsUsedGo cfg env vid (r + 1) = r + 1
      unfold attemptsUsedGo
      rw [hi]
      simp [iha, Nat.add_comm]

/-! ### Lemmas about the scrape loop -/

theorem scrapeGo_cursor (cfg : Config) (env : Env) :
    ∀ (ids : List Nat) (s e : Nat),
      (scrapeGo cfg env ids s e).events.map evCursor =
        cursorList cfg.seasonEpisodes ids.length s e := by
  intro ids
  induction ids with
  | nil => intro s e; rfl
  | cons vid rest ih =>
    intro s e
    cases hg : getVideoInfo cfg env vid s e with
    | none =>
      cases hadv : advanceCursor cfg.seasonEpisodes s e with
      | next s' e' => simp [scrapeGo, hg, hadv, evCursor, cursorList, ih]
      | overflow => simp [scrapeGo, hg, hadv, evCursor, cursorList]
      | indexError => simp [scrapeGo, hg, hadv, evCursor, cursorList]
    | some info =>
      obtain ⟨url, fn⟩ := info
      cases hadv : advanceCursor cfg.seasonEpisodes s e with
      | next s' e' => simp [scrapeGo, hg, hadv, evCursor, cursorList, ih]
      | overflow => simp [scrapeGo, hg, hadv, evCursor, cursorList]
      | indexError => simp [scrapeGo, hg, hadv, evCursor, cursorList]

theorem scrapeGo_vids (cfg : Config) (env : Env) :
    ∀ (ids : List Nat) (s e : Nat),
      (scrapeGo cfg env ids s e).events.map evVid =
        ids.take (scrapeGo cfg env ids s e).events.length := by
  intro ids
  induction ids with
  | nil => intro s e; rfl
  | cons vid rest ih =>
    intro s e
    cases hg : getVideoInfo cfg env vid s e with
    | none =>
      cases hadv : advanceCursor cfg.seasonEpisodes s e with
      | next s' e' => simp [scrapeGo, hg, hadv, evVid, ih]
      | overflow => simp [scrapeGo, hg, hadv, evVid]
      | indexError => simp [scrapeGo, hg, hadv, evVid]
    | some info =>
      obtain ⟨url, fn⟩ := info
      cases hadv : advanceCursor cfg.seasonEpisodes s e with
      | next s' e' => simp [scrapeGo, hg, hadv, evVid, ih]
      | overflow => simp [scrapeGo, hg, hadv, evVid]
      | indexError => simp [scrapeGo, hg, hadv, evVid]

theorem scrapeGo_rangeEnd_full (cfg : Config) (env : Env) :
    ∀ (ids : List Nat) (s e : Nat),
      (scrapeGo cfg env ids s e).halt = .rangeEnd →
      (scrapeGo cfg env ids s e).events.length = ids.length := by
  intro ids
  induction ids with
  | nil => intro s e _; rfl
  | cons vid rest ih =>
    intro s e hh
    cases hg : getVideoInfo cfg env vid s e with
    | none =>
      cases hadv : advanceCursor cfg.seasonEpisodes s e with
      | next s' e' =>
        simp only [scrapeGo, hg, hadv] at hh ⊢
        simp [ih s' e' hh]
      | overflow => simp [scrapeGo, hg, hadv] at hh
      | indexError => simp [scrapeGo, hg, hadv] at hh
    | some info =>
      obtain ⟨url, fn⟩ := info
      cases hadv : advanceCursor cfg.seasonEpisodes s e with
      | next s' e' =>
        simp only [scrapeGo, hg, hadv] at hh ⊢
        simp [ih s' e' hh]
      | overflow => simp [scrapeGo, hg, hadv] at hh
      | indexError => simp [scrapeGo, hg, hadv] at hh

theorem scrapeGo_events_ne_of_halt (cfg : Config) (env : Env) :
    ∀ (ids : List Nat) (s e : Nat),
      (scrapeGo cfg env ids s e).halt ≠ .rangeEnd →
      (scrapeGo cfg env ids s e).events ≠ [] := by
  intro ids
  induction ids with
  | nil => intro s e hh; exact absurd rfl hh
  | cons vid rest ih =>
    intro s e _
    cases hg : getVideoInfo cfg env vid s e with
    | none =>
      cases hadv : advanceCursor cfg.seasonEpisodes s e with
      | next s' e' => simp [scrapeGo, hg, hadv]
      | overflow => simp [scrapeGo, hg, hadv]
      | indexError => simp [scrapeGo, hg, hadv]
    | some info =>
      obtain ⟨url, fn⟩ := info
      cases hadv : advanceCursor cfg.seasonEpisodes s e with
      | next s' e' => simp [scrapeGo, hg, hadv]
      | overflow => simp [scrapeGo, hg, hadv]
      | indexError => simp [scrapeGo, hg, hadv]

theorem filterMap_records_sublist :
    ∀ evs : List Event,
      ((evs.filterMap fun ev => match ev with
        | .found r => some r
        | .skip _ _ _ => none).map Record.video_id).Sublist (evs.map evVid) := by
  intro evs
  induction evs with
  | nil => simp
  | cons ev evs ih =>
    cases ev with
    | found r =>
      simp only [List.filterMap_cons, List.map_cons]
      exact (ih.cons₂ r.video_id)
    | skip vid s e =>
      simp only [List.filterMap_cons, List.map_cons]
      exact ih.cons (evVid (.skip vid s e))

theorem traceRecords_map_sublist (t : Trace) :
    ((traceRecords t).map Record.video_id).Sublist (t.events.map evVid) :=
  filterMap_records_sublist t.events

theorem mem_traceRecords_origin (cfg : Config) (env : Env) :
    ∀ (ids : List Nat) (s e : Nat) (r : Record),
      r ∈ traceRecords (scrapeGo cfg env ids s e) →
      ∃ s' e', getVideoInfo cfg env r.video_id s' e' = some (r.url, r.filename) := by
  intro ids
  induction ids with
  | nil => intro s e r hr; simp [traceRecords, scrapeGo] at hr
  | cons vid rest ih =>
    intro s e r hr
    cases hg : getVideoInfo cfg env vid s e with
    | none =>
      cases hadv : advanceCursor cfg.seasonEpisodes s e with
      | next s' e' =>
        simp only [traceRecords, scrapeGo, hg, hadv, List.filterMap_cons] at hr
        exact ih s' e' r hr
      | overflow => simp [traceRecords, scrapeGo, hg, hadv] at hr
      | indexError => simp [traceRecords, scrapeGo, hg, hadv] at hr
    | some info =>
      obtain ⟨url, fn⟩ := info
      cases hadv : advanceCursor cfg.seasonEpisodes s e with
      | next s' e' =>
        simp only [traceRecords, scrapeGo, hg, hadv, List.filterMap_cons,
          List.mem_cons] at hr
        rcases hr with hr | hr
        · subst hr; exact ⟨s, e, hg⟩
        · exact ih s' e' r hr
      | overflow =>
        simp only [traceRecords, scrapeGo, hg, hadv, List.filterMap_cons,
          List.filterMap_nil, List.mem_singleton] at hr
        subst hr; exact ⟨s, e, hg⟩
      | indexError =>
        simp only [traceRecords, scrapeGo, hg, hadv, List.filterMap_cons,
          List.filterMap_nil, List.mem_singleton] at hr
        subst hr; exact ⟨s, e, hg⟩

theorem getVideoInfoGo_some_shape (cfg : Config) (env : Env) (vid season episode : Nat) :
    ∀ (rem : Nat) (u f : List Char),
      getVideoInfoGo cfg env vid season episode rem = some (u, f) →
      ∃ soup : Soup, f = createFilename season episode (extractTitle cfg.titleSelectors soup) := by
  intro rem
  induction rem with
  | zero => intro u f h; cases h
  | succ rem ih =>
    intro u f h
    unfold getVideoInfoGo at h
    cases ho : env.respond vid (cfg.maxRetries - (rem + 1)) with
    | excTimeout => rw [ho] at h; exact ih u f h
    | excOther => rw [ho] at h; exact ih u f h
    | response status text soup =>
      rw [ho] at h
      cases herr : handleRequestError cfg status text with
      | true => simp only [herr, if_true] at h; exact ih u f h
      | false =>
        simp only [herr, Bool.false_eq_true, if_false] at h
        cases hx : extractVideoUrl cfg.videoUrlPatterns env.findall text with
        | none => rw [hx] at h; exact ih u f h
        | some url =>
          rw [hx] at h
          simp only [Option.some_inj, Prod.mk.injEq] at h
          exact ⟨soup, h.2.symm⟩

theorem extractTitle_clean :
    ∀ (sels : List (List Char)) (soup : Soup) (c : Char),
      c ∈ extractTitle sels soup → forbiddenChar c = false := by
  intro sels
  induction sels with
  | nil =>
    intro soup c hc
    simp only [extractTitle] at hc
    fin_cases hc <;> decide
  | cons sel rest ih =>
    intro soup c hc
    simp only [extractTitle] at hc
    cases hss : soup sel with
    | none => rw [hss] at hc; exact ih soup c hc
    | some txt =>
      rw [hss] at hc
      by_cases he : (pyStrip txt).isEmpty
      · simp only [he, if_true] at hc; exact ih soup c hc
      · simp only [he, Bool.false_eq_true, if_false] at hc
        exact mem_sanitize_clean hc

theorem decimalAux_chars :
    ∀ (fuel n : Nat) (acc : List Char) (c : Char),
      c ∈ decimalAux fuel n acc → c ∈ acc ∨ ∃ d, c = decDigit d := by
  intro fuel
  induction fuel with
  | zero => intro n acc c h; exact Or.inl h
  | succ fuel ih =>
    intro n acc c h
    unfold decimalAux at h
    by_cases hn : n < 10
    · simp only [hn, if_true, List.mem_cons] at h
      rcases h with h | h
      · exact Or.inr ⟨n, h⟩
      · exact Or.inl h
    · simp only [hn, if_false] at h
      rcases ih (n / 10) (decDigit (n % 10) :: acc) c h with h' | h'
      · rcases List.mem_cons.1 h' with h'' | h''
        · exact Or.inr ⟨n % 10, h''⟩
        · exact Or.inl h''
      · exact Or.inr h'

theorem forbiddenChar_decDigit (d : Nat) : forbiddenChar (decDigit d) = false := by
  unfold decDigit
  have h : d % 10 < 10 := Nat.mod_lt _ (by decide)
  revert h
  generalize d % 10 = m
  intro h
  interval_cases m <;> decide

theorem pad2_clean (n : Nat) : ∀ c ∈ pad2 n, forbiddenChar c = false := by
  intro c hc
  unfold pad2 natDecimal at hc
  by_cases h : (decimalAux (n + 1) n []).length < 2
  · simp only [h, if_true, List.mem_cons] at hc
    rcases hc with hc | hc
    · subst hc; decide
    · rcases decimalAux_chars _ _ _ _ hc with h' | ⟨d, hd⟩
      · simp at h'
      · subst hd; exact forbiddenChar_decDigit d
  · simp only [h, if_false] at hc
    rcases decimalAux_chars _ _ _ _ hc with h' | ⟨d, hd⟩
    · simp at h'
    · subst hd; exact forbiddenChar_decDigit d

theorem createFilename_clean (season episode : Nat) (title : List Char)
    (ht : ∀ c ∈ title, forbiddenChar c = false) :
    ∀ c ∈ createFilename season episode title, forbiddenChar c = false := by
  intro c hc
  unfold createFilename at hc
  simp only [List.mem_cons, List.mem_append] at hc
  have hc' : c = 'S' ∨ c ∈ pad2 season ∨ c = '-' ∨ c = 'E' ∨ c ∈ pad2 episode ∨
      c ∈ title ∨ c = '.' ∨ c = 'm' ∨ c = 'p' ∨ c = '4' := by tauto
  rcases hc' with h | h | h | h | h | h | h | h | h | h
  · subst h; decide
  · exact pad2_clean season c h
  · subst h; decide
  · subst h; decide
  · exact pad2_clean episode c h
  · exact ht c h
  · subst h; decide
  · subst h; decide
  · subst h; decide
  · subst h; decide

theorem take_range' : ∀ (n a k : Nat), (List.range' a n).take k = List.range' a (min k n) := by
  intro n
  induction n with
  | zero => intro a k; simp
  | succ n ih =>
    intro a k
    cases k with
    | zero => simp
    | succ k =>
      show (a :: List.range' (a + 1) n).take (k + 1) = _
      rw [List.take_succ_cons, ih (a + 1) k, Nat.succ_min_succ]
      rfl

/-! ### Claim theorems about the loop -/

/-- C7: when every attempt fails retryably (non-200, short body, no URL
match, timeout or another exception), `get_video_info` performs exactly
`MAX_RETRIES` attempts and returns `none` to its caller — and which
identifiers the orchestrator processes never depends on fetch outcomes,
so a single-identifier failure cannot abort the run. -/
theorem getVideoInfo_retry_exhaustion (cfg : Config) (env : Env)
    (vid season episode : Nat)
    (h : ∀ a < cfg.maxRetries, attemptConcludes cfg env (env.respond vid a) = false) :
    getVideoInfo cfg env vid season episode = none ∧
      attemptsUsed cfg env vid = cfg.maxRetries ∧
      ∀ (ids : List Nat) (s e : Nat),
        (scrapeGo cfg env ids s e).events.map evVid =
          ids.take (cursorList cfg.seasonEpisodes ids.length s e).length := by
  obtain ⟨h1, h2⟩ := getVideoInfoGo_all_fail cfg env vid season episode
    cfg.maxRetries le_rfl (fun a _ ha2 => h a ha2)
  refine ⟨h1, h2, ?_⟩
  intro ids s e
  have hv := scrapeGo_vids cfg env ids s e
  have hc := scrapeGo_cursor cfg env ids s e
  have hlen : (scrapeGo cfg env ids s e).events.length =
      (cursorList cfg.seasonEpisodes ids.length s e).length := by
    rw [← hc, List.length_map]
  rw [hv, hlen]

/-- C7 witness: with 3 configured retries and an environment that always
answers a too-short body, the fetcher makes exactly 3 attempts and
returns `none`. -/
theorem getVideoInfo_retry_exhaustion_witness :
    getVideoInfo cfg7 envShort 1 1 1 = none ∧ attemptsUsed cfg7 envShort 1 = 3 :=
  ⟨(getVideoInfo_retry_exhaustion cfg7 envShort 1 1 1 (by decide)).1,
   (getVideoInfo_retry_exhaustion cfg7 envShort 1 1 1 (by decide)).2.1⟩

/-- C2: the season/episode cursor advances by one episode per processed
identifier independent of extraction outcome (the cursor trace of the
loop equals a pure function of the episode table and the starting
cursor), and with episode counts [2, 3] starting at (1, 1) the advances
run (1,1), (1,2), (2,1), (2,2), (2,3), after which the fifth advance
overflows the table, so of 7 offered identifiers only 5 are processed. -/
theorem cursor_advances_per_identifier :
    (∀ (cfg : Config) (env : Env) (ids : List Nat) (s e : Nat),
        (scrapeGo cfg env ids s e).events.map evCursor =
          cursorList cfg.seasonEpisodes ids.length s e) ∧
    advanceCursor [2, 3] 1 1 = .next 1 2 ∧
    advanceCursor [2, 3] 1 2 = .next 2 1 ∧
    advanceCursor [2, 3] 2 1 = .next 2 2 ∧
    advanceCursor [2, 3] 2 2 = .next 2 3 ∧
    advanceCursor [2, 3] 2 3 = .overflow ∧
    cursorList [2, 3] 7 1 1 = [(1, 1), (1, 2), (2, 1), (2, 2), (2, 3)] :=
  ⟨scrapeGo_cursor, by decide, by decide, by decide, by decide, by decide, by decide⟩

/-- C9 (amended): the loop sleeps a jittered delay after every processed
identifier — including the last identifier of the range — except when
the season-overflow break (or an IndexError) ends the loop, in which
case the final processed identifier is not followed by a sleep. -/
theorem sleeps_per_iteration (cfg : Config) (env : Env) :
    ∀ (ids : List Nat) (s e : Nat),
      (scrapeGo cfg env ids s e).sleeps =
        if (scrapeGo cfg env ids s e).halt = .rangeEnd
        then (scrapeGo cfg env ids s e).events.length
        else (scrapeGo cfg env ids s e).events.length - 1 := by
  intro ids
  induction ids with
  | nil => intro s e; rfl
  | cons vid rest ih =>
    intro s e
    cases hg : getVideoInfo cfg env vid s e with
    | none =>
      cases hadv : advanceCursor cfg.seasonEpisodes s e with
      | next s' e' =>
        simp only [scrapeGo, hg, hadv]
        by_cases hh : (scrapeGo cfg env rest s' e').halt = .rangeEnd
        · have := ih s' e'
          simp only [hh, if_true] at this
          simp [hh, this]
        · have h1 := ih s' e'
          simp only [hh, if_false] at h1
          have h2 := scrapeGo_events_ne_of_halt cfg env rest s' e' hh
          have h3 : 1 ≤ (scrapeGo cfg env rest s' e').events.length :=
            List.length_pos.2 h2
          simp only [hh, if_false, List.length_cons]
          omega
      | overflow => simp [scrapeGo, hg, hadv]
      | indexError => simp [scrapeGo, hg, hadv]
    | some info =>
      obtain ⟨url, fn⟩ := info
      cases hadv : advanceCursor cfg.seasonEpisodes s e with
      | next s' e' =>
        simp only [scrapeGo, hg, hadv]
        by_cases hh : (scrapeGo cfg env rest s' e').halt = .rangeEnd
        · have := ih s' e'
          simp only [hh, if_true] at this
          simp [hh, this]
        · have h1 := ih s' e'
          simp only [hh, if_false] at h1
          have h2 := scrapeGo_events_ne_of_halt cfg env rest s' e' hh
          have h3 : 1 ≤ (scrapeGo cfg env rest s' e').events.length :=
            List.length_pos.2 h2
          simp only [hh, if_false, List.length_cons]
          omega
      | overflow => simp [scrapeGo, hg, hadv]
      | indexError => simp [scrapeGo, hg, hadv]

/-- C9 counterexample: a run over the single identifier 1 ends by range
exhaustion having processed one identifier and having slept once — the
sleep happens after the last identifier processed in the run, which the
claim says never happens. -/
theorem sleep_after_last_identifier :
    (scrapeTrace cfg9 env0).events.length = 1 ∧
    (scrapeTrace cfg9 env0).halt = .rangeEnd ∧
    (scrapeTrace cfg9 env0).sleeps = 1 := by decide

/-- C1: each identifier of the configured range is recorded at most once
(one record or one skip, never both); when the loop ends by range
exhaustion every identifier of the range is recorded exactly once; and
an identifier recorded zero times can only sit beyond an early season
overflow stop — every processed identifier precedes it. -/
theorem exactly_one_outcome_per_id (cfg : Config) (env : Env) (vid : Nat)
    (h : vid ∈ rangeIds cfg) :
    ((scrapeTrace cfg env).events.map evVid).count vid ≤ 1 ∧
    ((scrapeTrace cfg env).halt = .rangeEnd →
      ((scrapeTrace cfg env).events.map evVid).count vid = 1) ∧
    (((scrapeTrace cfg env).events.map evVid).count vid = 0 →
      ∀ w ∈ (scrapeTrace cfg env).events.map evVid, w < vid) := by
  have hv : (scrapeTrace cfg env).events.map evVid =
      List.range' cfg.startVideoId
        (min (scrapeTrace cfg env).events.length
          (cfg.endVideoId + 1 - cfg.startVideoId)) := by
    show (scrapeGo cfg env (rangeIds cfg) cfg.startingSeason cfg.startingEpisode).events.map evVid = _
    rw [scrapeGo_vids cfg env (rangeIds cfg) cfg.startingSeason cfg.startingEpisode]
    rw [rangeIds, take_range']
    rfl
  have hnodup : ((scrapeTrace cfg env).events.map evVid).Nodup := by
    rw [hv]; exact List.nodup_range' _ _
  refine ⟨List.nodup_iff_count_le_one.1 hnodup vid, ?_, ?_⟩
  · intro hh
    have hlen : (scrapeTrace cfg env).events.length = (rangeIds cfg).length :=
      scrapeGo_rangeEnd_full cfg env (rangeIds cfg) cfg.startingSeason
        cfg.startingEpisode hh
    have hfull : (scrapeTrace cfg env).events.map evVid = rangeIds cfg := by
      rw [hv, hlen, rangeIds, List.length_range', Nat.min_self]
    rw [hfull]
    exact List.count_eq_one_of_mem
      (by rw [rangeIds]; exact List.nodup_range' _ _) h
  · intro h0 w hw
    have hnot : vid ∉ (scrapeTrace cfg env).events.map evVid :=
      List.count_eq_zero.1 h0
    rw [hv] at hnot hw
    rw [rangeIds, List.mem_range'_1] at h
    rw [List.mem_range'_1] at hw
    have : ¬ (cfg.startVideoId ≤ vid ∧
        vid < cfg.startVideoId + min (scrapeTrace cfg env).events.length
          (cfg.endVideoId + 1 - cfg.startVideoId)) := by
      intro hcon
      exact hnot (List.mem_range'_1.2 hcon)
    omega

/-- C1 witness. -/
theorem exactly_one_outcome_per_id_witness :
    ((scrapeTrace cfgDemo env0).events.map evVid).count 1 ≤ 1 :=
  (exactly_one_outcome_per_id cfgDemo env0 1 (by decide)).1

/-- C3: every record the orchestrator returns has its identifier inside
the configured range, the identifiers are strictly increasing in list
order (hence unique per run), and no filename contains a configured
filesystem-unsafe character. -/
theorem records_invariants (cfg : Config) (env : Env) :
    (∀ r ∈ traceRecords (scrapeTrace cfg env),
        cfg.startVideoId ≤ r.video_id ∧ r.video_id ≤ cfg.endVideoId ∧
        ∀ c ∈ r.filename, forbiddenChar c = false) ∧
    ((traceRecords (scrapeTrace cfg env)).map Record.video_id).Pairwise (· < ·) := by
  have hv : (scrapeTrace cfg env).events.map evVid =
      List.range' cfg.startVideoId
        (min (scrapeTrace cfg env).events.length
          (cfg.endVideoId + 1 - cfg.startVideoId)) := by
    show (scrapeGo cfg env (rangeIds cfg) cfg.startingSeason cfg.startingEpisode).events.map evVid = _
    rw [scrapeGo_vids cfg env (rangeIds cfg) cfg.startingSeason cfg.startingEpisode]
    rw [rangeIds, take_range']
    rfl
  have hsub := traceRecords_map_sublist (scrapeTrace cfg env)
  constructor
  · intro r hr
    have hmem : r.video_id ∈ (scrapeTrace cfg env).events.map evVid :=
      hsub.mem (List.mem_map_of_mem Record.video_id hr)
    rw [hv, List.mem_range'_1] at hmem
    refine ⟨by omega, by omega, ?_⟩
    obtain ⟨s', e', hget⟩ := mem_traceRecords_origin cfg env (rangeIds cfg)
      cfg.startingSeason cfg.startingEpisode r hr
    obtain ⟨soup, hf⟩ := getVideoInfoGo_some_shape cfg env r.video_id s' e'
      cfg.maxRetries r.url r.filename hget
    rw [hf]
    exact createFilename_clean s' e' _
      (fun c hc => extractTitle_clean cfg.titleSelectors soup c hc)
  · have hp : ((scrapeTrace cfg env).events.map evVid).Pairwise (· < ·) := by
      rw [hv]; exact List.pairwise_lt_range' _ _
    exact hp.sublist hsub

/-- C3 witness. -/
theorem records_invariants_witness :
    cfgDemo.startVideoId ≤ recDemo.video_id ∧ recDemo.video_id ≤ cfgDemo.endVideoId ∧
    ∀ c ∈ recDemo.filename, forbiddenChar c = false :=
  (records_invariants cfgDemo envOk).1 recDemo (by decide)

/-! ### Season-table indexing -/

theorem advanceCursor_of_bounds (counts : List Nat) (s e : Nat)
    (h1 : 1 ≤ s) (h2 : s ≤ counts.length) :
    (∃ s' e', advanceCursor counts s e = .next s' e' ∧ 1 ≤ s' ∧ s' ≤ counts.length) ∨
    advanceCursor counts s e = .overflow := by
  have hge : (0 : Int) ≤ (s : Int) - 1 := by omega
  have htn : ((s : Int) - 1).toNat = s - 1 := by omega
  have hlt : s - 1 < counts.length := by omega
  obtain ⟨cnt, hsome⟩ : ∃ cnt, pyGet counts ((s : Int) - 1) = some cnt := by
    simp only [pyGet, if_pos hge, htn]
    exact ⟨_, List.getElem?_eq_getElem hlt⟩
  have hred : advanceCursor counts s e =
      if e + 1 > cnt then
        (if s + 1 > counts.length then .overflow else .next (s + 1) 1)
      else .next s (e + 1) := by
    simp only [advanceCursor, hsome]
  rw [hred]
  by_cases hcnt : e + 1 > cnt
  · by_cases hov : s + 1 > counts.length
    · right; rw [if_pos hcnt, if_pos hov]
    · exact Or.inl ⟨s + 1, 1, by rw [if_pos hcnt, if_neg hov], by omega, by omega⟩
  · exact Or.inl ⟨s, e + 1, by rw [if_neg hcnt], h1, h2⟩

theorem advanceCursor_oob (counts : List Nat) (s e : Nat)
    (h : counts.length < s) : advanceCursor counts s e = .indexError := by
  have hge : (0 : Int) ≤ (s : Int) - 1 := by omega
  have htn : ((s : Int) - 1).toNat = s - 1 := by omega
  have hnone : pyGet counts ((s : Int) - 1) = none := by
    simp only [pyGet, if_pos hge, htn]
    exact List.getElem?_eq_none (by omega)
  unfold advanceCursor
  rw [hnone]

theorem scrapeGo_no_indexError (cfg : Config) (env : Env) :
    ∀ (ids : List Nat) (s e : Nat), 1 ≤ s → s ≤ cfg.seasonEpisodes.length →
      (scrapeGo cfg env ids s e).halt ≠ .indexError := by
  intro ids
  induction ids with
  | nil => intro s e _ _ hh; cases hh
  | cons vid rest ih =>
    intro s e h1 h2
    rcases advanceCursor_of_bounds cfg.seasonEpisodes s e h1 h2 with
      ⟨s', e', hadv, hs1, hs2⟩ | hadv
    · cases hg : getVideoInfo cfg env vid s e with
      | none => simp only [scrapeGo, hg, hadv]; exact ih s' e' hs1 hs2
      | some info =>
        obtain ⟨url, fn⟩ := info
        simp only [scrapeGo, hg, hadv]
        exact ih s' e' hs1 hs2
    · cases hg : getVideoInfo cfg env vid s e with
      | none => simp [scrapeGo, hg, hadv]
      | some info =>
        obtain ⟨url, fn⟩ := info
        simp [scrapeGo, hg, hadv]

/-- C10: with `1 ≤ STARTING_SEASON ≤ len(SEASON_EPISODES)` the loop's
`SEASON_EPISODES[season - 1]` access stays in bounds on every iteration
(the overflow break fires before any out-of-range season is used); with
`STARTING_SEASON > len(SEASON_EPISODES)` and a nonempty id range, the
very first cursor advance raises an IndexError after processing exactly
one identifier. -/
theorem season_index_safety (cfg : Config) (env : Env) :
    (1 ≤ cfg.startingSeason → cfg.startingSeason ≤ cfg.seasonEpisodes.length →
      (scrapeTrace cfg env).halt ≠ .indexError) ∧
    (cfg.seasonEpisodes.length < cfg.startingSeason →
      cfg.startVideoId ≤ cfg.endVideoId →
      (scrapeTrace cfg env).halt = .indexError ∧
      (scrapeTrace cfg env).events.length = 1) := by
  constructor
  · intro h1 h2
    exact scrapeGo_no_indexError cfg env (rangeIds cfg) cfg.startingSeason
      cfg.startingEpisode h1 h2
  · intro hlen hrange
    have hadv := advanceCursor_oob cfg.seasonEpisodes cfg.startingSeason
      cfg.startingEpisode hlen
    have hn : cfg.endVideoId + 1 - cfg.startVideoId =
        (cfg.endVideoId - cfg.startVideoId) + 1 := by omega
    have htr : scrapeTrace cfg env =
        scrapeGo cfg env
          (cfg.startVideoId :: List.range' (cfg.startVideoId + 1)
            (cfg.endVideoId - cfg.startVideoId))
          cfg.startingSeason cfg.startingEpisode := by
      show scrapeGo cfg env (rangeIds cfg) _ _ = _
      rw [rangeIds, hn, List.range'_succ]
    rw [htr]
    cases hg : getVideoInfo cfg env cfg.startVideoId cfg.startingSeason
        cfg.startingEpisode with
    | none => constructor <;> simp [scrapeGo, hg, hadv]
    | some info =>
      obtain ⟨url, fn⟩ := info
      constructor <;> simp [scrapeGo, hg, hadv]

/-- C10 witness: the repository's own configuration starts at season 6
of a 6-season table, so no run under it can raise an IndexError, while
a configuration starting at season 2 of a 1-season table raises on its
first advance. -/
theorem season_index_safety_witness :
    (scrapeTrace config env0).halt ≠ .indexError ∧
    (scrapeTrace cfgBad env0).halt = .indexError :=
  ⟨(season_index_safety config env0).1 (by decide) (by decide),
   ((season_index_safety cfgBad env0).2 (by decide) (by decide)).1⟩

/-! ### C6 / C8 witnesses -/

/-- C6 witness. -/
theorem extractVideoUrl_priority_witness :
    extractVideoUrl [("A").toList, ("B").toList] findallDemo [] =
      some (("http://x/y.mp4").toList) ∧
    extractVideoUrl [("A").toList] findallDemo [] = none :=
  ⟨(extractVideoUrl_priority findallDemo []).1 [("A").toList] (("B").toList) []
      (("http://x/y.mp4").toList) [("dup").toList] (by decide) (by decide),
   (extractVideoUrl_priority findallDemo []).2 [("A").toList] (by decide)⟩

/-- C8 witness. -/
theorem extractTitle_fallback_witness :
    extractTitle [("h1").toList, ("h2").toList] soupDemo =
      sanitizeFilename (pyStrip ((" T ").toList)) ∧
    extractTitle [("h1").toList] soupDemo = ("Unknown_Title").toList :=
  ⟨extractTitle_fallback.1 [("h1").toList] (("h2").toList) [] soupDemo
      ((" T ").toList) (by decide) (by decide) (by decide),
   extractTitle_fallback.2.1 [("h1").toList] soupDemo (by decide)⟩

/-! ### Round-trip of the link-list artifact -/

theorem noTrailSpace_append_cons (a : List Char) (c : Char) (t : List Char) :
    noTrailSpace (a ++ c :: t) = noTrailSpace (c :: t) := by
  unfold noTrailSpace
  rw [List.getLast?_append_cons]

theorem rstrip_eq_self {l : List Char} (h : noTrailSpace l = true) : rstrip l = l := by
  cases hr : l.reverse with
  | nil =>
    have : l = [] := by simpa using congrArg List.reverse hr
    subst this; rfl
  | cons c t =>
    have hlast : l.getLast? = some c := by
      rw [← List.head?_reverse, hr]; rfl
    unfold noTrailSpace at h
    rw [hlast] at h
    simp only [Bool.not_eq_true'] at h
    unfold rstrip
    rw [hr, List.dropWhile_cons, h]
    simp only [Bool.false_eq_true, if_false]
    rw [← hr, List.reverse_reverse]

theorem rstrip_snoc_space {c : Char} (hc : isPySpace c = true) (l : List Char) :
    rstrip (l ++ [c]) = rstrip l := by
  unfold rstrip
  rw [List.reverse_append, List.reverse_singleton, List.singleton_append,
    List.dropWhile_cons, hc]
  simp

theorem rstrip_append_nonspace {b : List Char} (hb : ∃ c ∈ b, isPySpace c = false)
    (a : List Char) : rstrip (a ++ b) = a ++ rstrip b := by
  unfold rstrip
  rw [List.reverse_append]
  have hne : (b.reverse.dropWhile isPySpace).isEmpty = false := by
    obtain ⟨c, hc, hcf⟩ := hb
    cases hd : b.reverse.dropWhile isPySpace with
    | nil =>
      have := List.dropWhile_eq_nil_iff.1 hd c (List.mem_reverse.2 hc)
      rw [hcf] at this
      cases this
    | cons x xs => rfl
  rw [List.dropWhile_append, hne]
  simp

theorem lstrip_cons_nonspace {c : Char} (hc : isPySpace c = false) (l : List Char) :
    lstrip (c :: l) = c :: l := by
  unfold lstrip
  rw [List.dropWhile_cons, hc]
  simp

theorem goodRec_url_head {v : Record} (h : goodRec v) :
    ∃ t, v.url = 'h' :: t := by
  obtain ⟨h1, _⟩ := h
  cases hu : v.url with
  | nil => rw [hu] at h1; cases h1
  | cons c t =>
    rw [hu] at h1
    unfold httpsMark leadsWith at h1
    have : ('h' == c) = true := by
      cases hbe : ('h' == c) with
      | true => rfl
      | false => rw [hbe] at h1; simp at h1
    exact ⟨t, by rw [eq_of_beq this]⟩

theorem pyStrip_url {v : Record} (h : goodRec v) : pyStrip v.url = v.url := by
  obtain ⟨t, ht⟩ := goodRec_url_head h
  unfold pyStrip
  rw [ht, lstrip_cons_nonspace (by decide), ← ht, rstrip_eq_self h.2.2.1]

theorem lstrip_outLine (v : Record) : lstrip (outLineOf v) = outMark ++ v.filename := by
  show lstrip (' ' :: ' ' :: 'o' :: 'u' :: 't' :: '=' :: v.filename) = _
  unfold lstrip
  rw [List.dropWhile_cons, if_pos (by decide), List.dropWhile_cons, if_pos (by decide),
    List.dropWhile_cons, if_neg (by decide)]
  rfl

theorem noTrailSpace_outMark_filename {v : Record} (h : noTrailSpace v.filename = true) :
    noTrailSpace (outMark ++ v.filename) = true := by
  cases hf : v.filename with
  | nil => decide
  | cons c t =>
    rw [noTrailSpace_append_cons, ← hf]
    exact h

theorem pyStrip_outLine {v : Record} (h : noTrailSpace v.filename = true) :
    pyStrip (outLineOf v) = outMark ++ v.filename := by
  unfold pyStrip
  rw [lstrip_outLine, rstrip_eq_self (noTrailSpace_outMark_filename h)]

theorem not_leadsWith_https_outMark (f : List Char) :
    leadsWith httpsMark (outMark ++ f) = false := by
  rfl

theorem leadsWith_self_append : ∀ (p f : List Char), leadsWith p (p ++ f) = true := by
  intro p
  induction p with
  | nil => intro f; rfl
  | cons c cs ih =>
    intro f
    show (c == c && leadsWith cs (cs ++ f)) = true
    rw [ih f]
    simp

theorem splitOnNl_no_nl : ∀ {l : List Char}, '\n' ∉ l → splitOnNl l = [l] := by
  intro l
  induction l with
  | nil => intro _; rfl
  | cons c t ih =>
    intro h
    have hc : c ≠ '\n' := fun hh => h (by simp [hh])
    have ht : '\n' ∉ t := fun hh => h (by simp [hh])
    rw [splitOnNl, if_neg hc, ih ht]

theorem splitOnNl_append {a : List Char} (ha : '\n' ∉ a) (b : List Char) :
    splitOnNl (a ++ '\n' :: b) = a :: splitOnNl b := by
  induction a with
  | nil =>
    show splitOnNl ('\n' :: b) = [] :: splitOnNl b
    rw [splitOnNl, if_pos rfl]
  | cons c t ih =>
    have hc : c ≠ '\n' := fun hh => ha (by simp [hh])
    have ht : '\n' ∉ t := fun hh => ha (by simp [hh])
    show splitOnNl (c :: (t ++ '\n' :: b)) = (c :: t) :: splitOnNl b
    rw [splitOnNl, if_neg hc, ih ht]

theorem nl_not_mem_outLine {v : Record} (h : '\n' ∉ v.filename) :
    '\n' ∉ outLineOf v := by
  unfold outLineOf
  intro hmem
  simp only [List.mem_cons] at hmem
  rcases hmem with h' | h' | h' | h' | h' | h' | h'
  · cases h'
  · cases h'
  · cases h'
  · cases h'
  · cases h'
  · cases h'
  · exact h h'

theorem noTrailSpace_outLine {v : Record} (h : noTrailSpace v.filename = true) :
    noTrailSpace (outLineOf v) = true := by
  cases hf : v.filename with
  | nil =>
    unfold outLineOf
    rw [hf]
    decide
  | cons c t =>
    have h' : noTrailSpace (c :: t) = true := by rw [← hf]; exact h
    unfold outLineOf
    rw [hf]
    show noTrailSpace ((' ' :: ' ' :: 'o' :: 'u' :: 't' :: ['=']) ++ c :: t) = true
    rw [noTrailSpace_append_cons]
    exact h'

theorem saveDownloadLinks_cons (v : Record) (vs : List Record) :
    saveDownloadLinks (v :: vs) = blockOf v ++ saveDownloadLinks vs := by
  unfold saveDownloadLinks
  rw [List.map_cons, List.flatten_cons]

theorem blockOf_assoc (v : Record) (x : List Char) :
    blockOf v ++ x = v.url ++ '\n' :: (outLineOf v ++ '\n' :: '\n' :: x) := by
  unfold blockOf
  simp [List.append_assoc]

theorem rstrip_block_last {v : Record} (h : noTrailSpace v.filename = true) :
    rstrip (blockOf v) = v.url ++ '\n' :: outLineOf v := by
  have hb : blockOf v = ((v.url ++ '\n' :: outLineOf v) ++ ['\n']) ++ ['\n'] := by
    unfold blockOf
    simp [List.append_assoc]
  have h1 : noTrailSpace ('\n' :: outLineOf v) = true := by
    show noTrailSpace (['\n'] ++
      (' ' :: ' ' :: 'o' :: 'u' :: 't' :: '=' :: v.filename)) = true
    rw [noTrailSpace_append_cons]
    exact noTrailSpace_outLine h
  have h2 : noTrailSpace (v.url ++ '\n' :: outLineOf v) = true := by
    rw [noTrailSpace_append_cons]
    exact h1
  rw [hb, rstrip_snoc_space (by decide), rstrip_snoc_space (by decide),
    rstrip_eq_self h2]

theorem lstrip_append_cons_nonspace {c : Char} (hc : isPySpace c = false)
    (t r : List Char) : lstrip ((c :: t) ++ r) = (c :: t) ++ r := by
  show lstrip (c :: (t ++ r)) = c :: (t ++ r)
  exact lstrip_cons_nonspace hc _

theorem lstrip_save (videos : List Record) (hne : videos ≠ [])
    (h : ∀ v ∈ videos, goodRec v) :
    lstrip (saveDownloadLinks videos) = saveDownloadLinks videos := by
  cases videos with
  | nil => exact absurd rfl hne
  | cons w ws =>
    obtain ⟨t, ht⟩ := goodRec_url_head (h w (by simp))
    rw [saveDownloadLinks_cons]
    unfold blockOf
    rw [ht, List.cons_append, List.cons_append]
    exact lstrip_cons_nonspace (by decide) _

theorem splitOnNl_rstrip_save :
    ∀ (videos : List Record), videos ≠ [] → (∀ v ∈ videos, goodRec v) →
      splitOnNl (rstrip (saveDownloadLinks videos)) = linesOf videos := by
  intro videos
  induction videos with
  | nil => intro hne _; exact absurd rfl hne
  | cons v vs ih =>
    intro _ hgood
    have hgv := hgood v (by simp)
    cases vs with
    | nil =>
      rw [saveDownloadLinks_cons]
      have hnil : saveDownloadLinks ([] : List Record) = [] := rfl
      rw [hnil, List.append_nil, rstrip_block_last hgv.2.2.2.2,
        splitOnNl_append hgv.2.1,
        splitOnNl_no_nl (nl_not_mem_outLine hgv.2.2.2.1)]
      rfl
    | cons w ws =>
      have hgw := hgood w (by simp)
      rw [saveDownloadLinks_cons]
      have hS : ∃ c ∈ saveDownloadLinks (w :: ws), isPySpace c = false := by
        obtain ⟨t, ht⟩ := goodRec_url_head hgw
        refine ⟨'h', ?_, by decide⟩
        rw [saveDownloadLinks_cons]
        unfold blockOf
        rw [ht]
        simp
      rw [rstrip_append_nonspace hS, blockOf_assoc,
        splitOnNl_append hgv.2.1,
        splitOnNl_append (nl_not_mem_outLine hgv.2.2.2.1)]
      have hblank : splitOnNl ('\n' :: rstrip (saveDownloadLinks (w :: ws))) =
          [] :: splitOnNl (rstrip (saveDownloadLinks (w :: ws))) := by
        rw [splitOnNl, if_pos rfl]
      rw [hblank, ih (by simp) (fun u hu => hgood u (by simp [hu]))]
      rfl

theorem parseLines_url_line {u : List Char} (hu : pyStrip u = u)
    (hlw : leadsWith httpsMark u = true) (rest : List (List Char))
    (cur : Option (List Char)) :
    parseLines (u :: rest) cur = parseLines rest (some u) := by
  simp only [parseLines, hu, hlw, if_true]

theorem parseLines_out_line {v : Record} (hf : noTrailSpace v.filename = true)
    (rest : List (List Char)) (u : List Char) :
    parseLines (outLineOf v :: rest) (some u) =
      (u, v.filename) :: parseLines rest none := by
  simp only [parseLines, pyStrip_outLine hf, not_leadsWith_https_outMark,
    leadsWith_self_append, Bool.false_eq_true, if_false, if_true]
  rfl

theorem parseLines_blank (rest : List (List Char)) (cur : Option (List Char)) :
    parseLines ([] :: rest) cur = parseLines rest cur := by
  simp only [parseLines]
  rfl

theorem parseLines_linesOf :
    ∀ (videos : List Record), (∀ v ∈ videos, goodRec v) →
      parseLines (linesOf videos) none = videos.map fun v => (v.url, v.filename) := by
  intro videos
  induction videos with
  | nil => intro _; rfl
  | cons v vs ih =>
    intro hgood
    have hgv := hgood v (by simp)
    cases vs with
    | nil =>
      show parseLines [v.url, outLineOf v] none = [(v.url, v.filename)]
      rw [parseLines_url_line (pyStrip_url hgv) hgv.1,
        parseLines_out_line hgv.2.2.2.2]
      rfl
    | cons w ws =>
      show parseLines (v.url :: outLineOf v :: [] :: linesOf (w :: ws)) none = _
      rw [parseLines_url_line (pyStrip_url hgv) hgv.1,
        parseLines_out_line hgv.2.2.2.2, parseLines_blank,
        ih (fun u hu => hgood u (by simp [hu]))]
      rfl

/-- C4 counterexample: each of these three record lists satisfies the
claim's hypotheses (urls start with https://, filenames contain no
newline), yet serializing with `save_download_links` and parsing with
`load_links` does not return the same (url, filename) pairs: a filename
with trailing whitespace is right-stripped by the parser, a url
containing a newline is split across lines, and a url with trailing
whitespace is stripped. -/
theorem link_list_roundtrip_counterexample :
    loadLinks (saveDownloadLinks [⟨("https://x/a.mp4").toList, ("a ").toList, 1, 1, 1⟩]) ≠
      [(("https://x/a.mp4").toList, ("a ").toList)] ∧
    loadLinks (saveDownloadLinks
        [⟨("https://x").toList ++ '\n' :: ("z").toList, ("a").toList, 1, 1, 1⟩]) ≠
      [(("https://x").toList ++ '\n' :: ("z").toList, ("a").toList)] ∧
    loadLinks (saveDownloadLinks [⟨("https://x ").toList, ("a").toList, 1, 1, 1⟩]) ≠
      [(("https://x ").toList, ("a").toList)] := by
  decide

/-- C4 (amended): serialization followed by parsing round-trips for
every list of records whose urls start with https:// and contain no
newline and no trailing whitespace, and whose filenames contain no
newline and no trailing whitespace; the parser returns exactly the
(url, filename) pairs in order. -/
theorem link_list_roundtrip (videos : List Record)
    (h : ∀ v ∈ videos, goodRec v) :
    loadLinks (saveDownloadLinks videos) =
      videos.map fun v => (v.url, v.filename) := by
  cases hv : videos with
  | nil => rfl
  | cons w ws =>
    subst hv
    unfold loadLinks pyStrip
    rw [lstrip_save _ (by simp) h,
      splitOnNl_rstrip_save _ (by simp) h,
      parseLines_linesOf _ h]

/-- C4 witness: the concrete record named by the claim round-trips. -/
theorem link_list_roundtrip_witness :
    loadLinks (saveDownloadLinks
        [⟨("https://x/a.mp4").toList, ("S01-E01-Demo.mp4").toList, 1, 1, 1⟩]) =
      [(("https://x/a.mp4").toList, ("S01-E01-Demo.mp4").toList)] :=
  link_list_roundtrip
    [⟨("https://x/a.mp4").toList, ("S01-E01-Demo.mp4").toList, 1, 1, 1⟩]
    (by decide)

end VideoDL
